import Mathlib

/-!
A shallow embedding of the CV scoring engine (`engine.cjs`) of the
simple-cv-scoring-engine repository, together with theorems settling the
frozen claims about its specification.

Modelling conventions:
* JavaScript strings are `List Char`; JavaScript numbers are exact
  rationals (`ℚ`) or integers (`ℤ`); `NaN` (from a failed `parseInt`)
  is `Option.none`.
* `x || d` on numbers (which falls back on `d` for `0`, `NaN`,
  `null`/`undefined`) is `jsOrQ` / `jsOrI`; `x || d` on arrays/objects
  (which falls back only on `null`/`undefined`, an empty array being
  truthy) is `Option.getD`; `x ?? d` is `Option.getD` as well.
* `Number.prototype.toFixed(2)` followed by unary `+` is `round2`
  (round half towards +infinity to two decimals, the idealisation of
  the engine's binary-float rounding in exact arithmetic).
* The regular expressions of the engine are embedded as an explicit
  abstract syntax tree `RE` together with a backtracking matcher
  `mtch` that mirrors the JavaScript semantics used here: leftmost
  match, alternation in written order, greedy (longest-first)
  repetition and option, word boundaries `\b` over the word characters
  `[A-Za-z0-9_]`, and the `i` flag as ASCII case folding (`lc`).
* The system clock read by `new Date()` inside `extractRanges` is an
  explicit parameter `now : MY`.
-/

namespace CVEngine

/-! ### Characters and JavaScript primitives -/

/-- A word character in the sense of the JavaScript `\b` and `\w`
classes: `[A-Za-z0-9_]`. -/
def isWordChar (c : Char) : Bool :=
  (65 ≤ c.toNat && c.toNat ≤ 90) || (97 ≤ c.toNat && c.toNat ≤ 122) ||
    (48 ≤ c.toNat && c.toNat ≤ 57) || c.toNat == 95

/-- ASCII lowercasing: the case folding the engine's `i`-flagged regexes
and `toLowerCase()` calls perform on the (ASCII) rubric/config terms. -/
def lc (c : Char) : Char :=
  if 65 ≤ c.toNat && c.toNat ≤ 90 then Char.ofNat (c.toNat + 32) else c

/-- The JavaScript `\s` class (whitespace), covering the characters
relevant here: space, tab, LF, VT, FF, CR, NBSP, and the Unicode
space/separator characters JavaScript includes. -/
def isSpaceJS (c : Char) : Bool :=
  c.toNat == 32 || c.toNat == 9 || c.toNat == 10 || c.toNat == 11 ||
    c.toNat == 12 || c.toNat == 13 || c.toNat == 160 || c.toNat == 0x1680 ||
    (0x2000 ≤ c.toNat && c.toNat ≤ 0x200A) || c.toNat == 0x2028 ||
    c.toNat == 0x2029 || c.toNat == 0x202F || c.toNat == 0x205F ||
    c.toNat == 0x3000 || c.toNat == 0xFEFF

/-- The character class `[\/\-]` of the engine's date patterns. -/
def isSlashDash (c : Char) : Bool := c == '/' || c == '-'

/-- JavaScript `x || d` for a number `x` that may be `null`/`undefined`
(`none`) or `NaN`-free: `0` is falsy, so it also falls back on `d`. -/
def jsOrQ (o : Option ℚ) (d : ℚ) : ℚ :=
  match o with
  | none => d
  | some v => if v = 0 then d else v

/-- JavaScript `x || d` for an integer-valued number `x` where `none`
stands for `null`/`undefined`/`NaN` (all falsy). -/
def jsOrI (o : Option ℤ) (d : ℤ) : ℤ :=
  match o with
  | none => d
  | some v => if v = 0 then d else v

/-- `+x.toFixed(2)`: rounding to two decimal places (half up), as exact
rational arithmetic (`Rat.floor` keeps the definition computable). -/
def round2 (q : ℚ) : ℚ := ((100 * q + 1/2).floor : ℤ) / 100

/-! ### A backtracking regex engine

The engine's patterns use only literals, character classes, bounded and
unbounded repetition of a character class, alternation, option, word
boundaries, and numbered capture groups, so the AST below suffices. -/

/-- Abstract syntax of the regular expressions the engine uses.
`strL` is a literal sequence matched case-insensitively, `cls` a single
character of a class, `rep p lo hi` a greedy repetition of a class
(`hi = none` for unbounded), `opt` a greedy `(...)?`, `wb` is `\b`, and
`grp n` a capturing group numbered `n`. -/
inductive RE where
  | strL : List Char → RE
  | cls : (Char → Bool) → RE
  | rep : (Char → Bool) → Nat → Option Nat → RE
  | cat : RE → RE → RE
  | alt : RE → RE → RE
  | opt : RE → RE
  | wb : RE
  | grp : Nat → RE → RE

/-- Case-insensitive comparison of the characters of `t` against `s`
starting at index `i`. -/
def ciAt (s : List Char) (i : Nat) : List Char → Bool
  | [] => true
  | c :: cs =>
    match s.get? i with
    | some d => lc d == lc c && ciAt s (i + 1) cs
    | none => false

/-- Is the character at index `j` (if any) a word character? -/
def wordishAt (s : List Char) (j : Nat) : Bool :=
  match s.get? j with
  | some c => isWordChar c
  | none => false

/-- `\b` holds at position `i` iff exactly one of the adjacent
characters is a word character. -/
def wbAt (s : List Char) (i : Nat) : Bool :=
  (if i = 0 then false else wordishAt s (i - 1)) != wordishAt s i

/-- Length of the maximal run of characters satisfying `p`. -/
def runLenAux (p : Char → Bool) : List Char → Nat
  | [] => 0
  | c :: cs => if p c then runLenAux p cs + 1 else 0

/-- Length of the maximal run of characters satisfying `p` starting at
index `i` of `s`. -/
def runLen (p : Char → Bool) (s : List Char) (i : Nat) : Nat :=
  runLenAux p (s.drop i)

/-- The capture groups of a match; the engine's range pattern has four.
`none` is an unmatched (`undefined`) group; a matched group records its
start and end positions. -/
structure Caps where
  g1 : Option (Nat × Nat) := none
  g2 : Option (Nat × Nat) := none
  g3 : Option (Nat × Nat) := none
  g4 : Option (Nat × Nat) := none

/-- The empty capture record. -/
def Caps.empty : Caps := {}

/-- Record group `n` as having matched positions `v`. -/
def Caps.set (c : Caps) (n : Nat) (v : Nat × Nat) : Caps :=
  match n with
  | 1 => { c with g1 := some v }
  | 2 => { c with g2 := some v }
  | 3 => { c with g3 := some v }
  | 4 => { c with g4 := some v }
  | _ => c

/-- Greedy repetition: try `n` repetitions first (the continuation `k`
at position `i + n`), then backtrack down to `lo`. -/
def tryRep (k : Nat → Caps → Option (Nat × Caps)) (caps : Caps) (i lo : Nat) :
    Nat → Option (Nat × Caps)
  | 0 => if lo = 0 then k i caps else none
  | n + 1 =>
    if n + 1 < lo then none
    else
      match k (i + (n + 1)) caps with
      | some r => some r
      | none => tryRep k caps i lo n

/-- The backtracking matcher, in continuation-passing style: try to
match `r` at position `i` of `s` with captures `caps`; on success call
`k` with the end position and updated captures; `none` means this
branch fails and the caller backtracks.  Alternation prefers its left
side, option and repetition are greedy — the JavaScript order. -/
def mtch : RE → List Char → Nat → Caps → (Nat → Caps → Option (Nat × Caps)) →
    Option (Nat × Caps)
  | .strL t, s, i, caps, k => if ciAt s i t then k (i + t.length) caps else none
  | .cls p, s, i, caps, k =>
    match s.get? i with
    | some c => if p c then k (i + 1) caps else none
    | none => none
  | .rep p lo hi, s, i, caps, k =>
    tryRep k caps i lo
      (match hi with
       | some h => min h (runLen p s i)
       | none => runLen p s i)
  | .cat a b, s, i, caps, k => mtch a s i caps fun j c2 => mtch b s j c2 k
  | .alt a b, s, i, caps, k =>
    (match mtch a s i caps k with
     | some r => some r
     | none => mtch b s i caps k)
  | .opt a, s, i, caps, k =>
    (match mtch a s i caps k with
     | some r => some r
     | none => k i caps)
  | .wb, s, i, caps, k => if wbAt s i then k i caps else none
  | .grp n a, s, i, caps, k => mtch a s i caps fun j c2 => k j (c2.set n (i, j))

/-- Try to match `r` at start positions `i, i+1, ...` (`n` attempts):
the leftmost-match rule of the JavaScript engine.  Returns the start
position, end position, and captures of the first success. -/
def scanCount (r : RE) (s : List Char) : Nat → Nat → Option (Nat × Nat × Caps)
  | _, 0 => none
  | i, n + 1 =>
    match mtch r s i Caps.empty (fun j c => some (j, c)) with
    | some (j, c) => some (i, j, c)
    | none => scanCount r s (i + 1) n

/-- `String.prototype.match` / `RegExp.prototype.exec` without the `g`
flag: the leftmost match of `r` in `s`, with its captures. -/
def firstMatch (r : RE) (s : List Char) : Option (Nat × Nat × Caps) :=
  scanCount r s 0 (s.length + 1)

/-- `RegExp.prototype.test`. -/
def reTest (r : RE) (s : List Char) : Bool := (firstMatch r s).isSome

/-- Alternation `a1|a2|...|an` over literal words, in written order.
The empty list gives the empty pattern (JavaScript `new RegExp("")`),
which matches everywhere. -/
def altStrs : List (List Char) → RE
  | [] => .strL []
  | [x] => .strL x
  | x :: xs => .alt (.strL x) (altStrs xs)

/-- Alternation over arbitrary sub-patterns, in written order; the
empty list again gives the empty (always-matching) pattern. -/
def altREs : List RE → RE
  | [] => .strL []
  | [r] => r
  | r :: rs => .alt r (altREs rs)

/-- `s.slice(a, b)`: the characters of positions `[a, b)`. -/
def slice (s : List Char) (a b : Nat) : List Char := (s.take b).drop a

/-! ### Months, `parseInt`, `parseY`, `parseMonthToken` -/

/-- The `MONTHS` table of the engine (lowercase full month names, in
calendar order). -/
def MONTHS : List (List Char) :=
  ["january".data, "february".data, "march".data, "april".data, "may".data,
   "june".data, "july".data, "august".data, "september".data, "october".data,
   "november".data, "december".data]

/-- `MONTH_ABBR = MONTHS.map(m => m.slice(0, 3))`. -/
def MONTH_ABBR : List (List Char) := MONTHS.map (List.take 3)

/-- `Array.prototype.indexOf`, as an `Option Nat`. -/
def idxOf (l : List (List Char)) (x : List Char) : Option Nat :=
  match l with
  | [] => none
  | y :: ys =>
    if y = x then some 0
    else match idxOf ys x with
      | some i => some (i + 1)
      | none => none

/-- `parseMonthToken`: a full month name gives its index, else its
3-letter prefix is looked up among the abbreviations; `null` otherwise.
(The caller passes `null` for an absent token; that case is handled by
`Option.bind` at the call site.) -/
def parseMonthToken (tok : List Char) : Option ℤ :=
  let s := tok.map lc
  match idxOf MONTHS s with
  | some i => some (i : ℤ)
  | none =>
    match idxOf MONTH_ABBR (s.take 3) with
    | some i => some (i : ℤ)
    | none => none

/-- The numeric value of a digit string. -/
def digitsToNat (ds : List Char) : ℕ := ds.foldl (fun a c => a * 10 + (c.toNat - 48)) 0

/-- JavaScript `parseInt(s, 10)`: skip leading whitespace, an optional
sign, then the maximal run of digits; `NaN` (`none`) when there is no
digit. -/
def parseIntJS (s : List Char) : Option ℤ :=
  match s.dropWhile isSpaceJS with
  | '-' :: rest =>
    let ds := rest.takeWhile Char.isDigit
    if ds.isEmpty then none else some (-(digitsToNat ds : ℤ))
  | '+' :: rest =>
    let ds := rest.takeWhile Char.isDigit
    if ds.isEmpty then none else some (digitsToNat ds : ℤ)
  | t =>
    let ds := t.takeWhile Char.isDigit
    if ds.isEmpty then none else some (digitsToNat ds : ℤ)

/-- A month/year pair before clamping: `y` is `none` when the year
failed to parse (JavaScript `NaN`), `m` is a 0-based month index. -/
structure RawMY where
  y : Option ℤ
  m : ℤ
deriving DecidableEq

/-- The pattern `/(\d{1,2})[\/\-](\d{2,4})/` of `parseY`. -/
def pyRE : RE :=
  .cat (.grp 1 (.rep Char.isDigit 1 (some 2)))
    (.cat (.cls isSlashDash) (.grp 2 (.rep Char.isDigit 2 (some 4))))

/-- `parseY`: handles `"2023"` or `"05/2023"` etc.  A `month/year`
match takes the month from group 1 (clamped into 1..12, then 0-based)
and the year from group 2 (a 2-digit year is prefixed with `"20"`);
otherwise the whole token is `parseInt`ed as a year with month 0.
Group 1 of a match is all digits, so its `parseInt` cannot fail; the
`none` fallback of `mm` below is unreachable. -/
def parseY (s : List Char) : RawMY :=
  match firstMatch pyRE s with
  | some (_, _, caps) =>
    match caps.g1, caps.g2 with
    | some (a1, b1), some (a2, b2) =>
      let g1 := slice s a1 b1
      let g2 := slice s a2 b2
      let mm : ℤ :=
        match parseIntJS g1 with
        | some v => max 1 (min 12 v) - 1
        | none => 0
      let yyyy := parseIntJS (if g2.length == 2 then ['2', '0'] ++ g2 else g2)
      ⟨yyyy, mm⟩
    | _, _ => ⟨parseIntJS s, 0⟩
  | none => ⟨parseIntJS s, 0⟩

/-! ### `MonthYear`, `monthsBetween`, `clampMonthYear` -/

/-- A resolved month/year: `{ y: YYYY, m: 0..11 }`. -/
structure MY where
  y : ℤ
  m : ℤ
deriving DecidableEq

/-- `monthsBetween(a, b) = (b.y - a.y) * 12 + (b.m - a.m) + 1`: the
inclusive month count. -/
def monthsBetween (a b : MY) : ℤ := (b.y - a.y) * 12 + (b.m - a.m) + 1

/-- `clampMonthYear`: `null` passes through; otherwise the year is
`Math.max(1900, Math.min(2200, obj.y || 0))` (a `NaN` year is falsy and
becomes `0` before clamping) and the month is
`Math.max(0, Math.min(11, obj.m || 0))`. -/
def clampMonthYear : Option RawMY → Option MY
  | none => none
  | some o => some ⟨max 1900 (min 2200 (jsOrI o.y 0)), max 0 (min 11 (jsOrI (some o.m) 0))⟩

/-- The `MonthYear` invariant of the data model: year in `[1900, 2200]`,
month in `[0, 11]`. -/
def validMY (a : MY) : Prop :=
  1900 ≤ a.y ∧ a.y ≤ 2200 ∧ 0 ≤ a.m ∧ a.m ≤ 11

instance : DecidablePred validMY := fun a => by unfold validMY; infer_instance

/-! ### The date-range pattern `re.range` -/

/-- `\s+`. -/
def spRep1 : RE := .rep isSpaceJS 1 none

/-- `\s*`. -/
def spRep0 : RE := .rep isSpaceJS 0 none

/-- `20\d{2}|19\d{2}|\d{1,2}[\/\-]\d{2,4}`, in written order. -/
def yearNum : RE :=
  .alt (.cat (.strL ['2', '0']) (.rep Char.isDigit 2 (some 2)))
    (.alt (.cat (.strL ['1', '9']) (.rep Char.isDigit 2 (some 2)))
      (.cat (.rep Char.isDigit 1 (some 2))
        (.cat (.cls isSlashDash) (.rep Char.isDigit 2 (some 4)))))

/-- The month-name alternation: full names first, then abbreviations,
as the engine builds it from `MONTHS.join("|")` and
`MONTH_ABBR.join("|")`. -/
def monAlt : RE := altStrs (MONTHS ++ MONTH_ABBR)

/-- The separator `(?:to|–|-|—)`. -/
def sepAlt : RE :=
  .alt (.strL "to".data) (.alt (.strL "–".data) (.alt (.strL "-".data) (.strL "—".data)))

/-- The terminal token `(present|current|now|20\d{2}|19\d{2}|\d{1,2}[\/\-]\d{2,4})`. -/
def endTok : RE :=
  .alt (.strL "present".data)
    (.alt (.strL "current".data) (.alt (.strL "now".data) yearNum))

/-- `re.range`: date ranges like `Jan 2023 – Present`, `2021 - 2024`,
`March 2020 to Jun 2022`, `05/2022 - 10/2023`.  Groups: 1 = optional
from-month name, 2 = from token, 3 = optional to-month name,
4 = to token or present-class keyword. -/
def rangeRE : RE :=
  .cat .wb
    (.cat (.opt (.cat (.grp 1 monAlt) spRep1))
      (.cat (.grp 2 yearNum)
        (.cat spRep0
          (.cat sepAlt
            (.cat spRep0
              (.cat (.opt (.cat (.grp 3 monAlt) spRep1))
                (.cat (.grp 4 endTok) .wb)))))))

/-! ### `extractRanges` -/

/-- `text.split(/\r?\n/)`: split into lines at `\n` or `\r\n` (a lone
`\r` is not a separator). -/
def splitLines : List Char → List (List Char)
  | [] => [[]]
  | '\r' :: '\n' :: rest => [] :: splitLines rest
  | '\n' :: rest => [] :: splitLines rest
  | c :: rest =>
    match splitLines rest with
    | [] => [[c]]
    | l :: ls => (c :: l) :: ls

/-- `re.classify.internship = /\b(intern|internship)\b/i`. -/
def internshipRE : RE :=
  .cat .wb (.cat (altStrs ["intern".data, "internship".data]) .wb)

/-- `re.classify.parttime = /\b(part-?time)\b/i`. -/
def parttimeRE : RE :=
  .cat .wb
    (.cat (.cat (.strL "part".data) (.cat (.opt (.strL "-".data)) (.strL "time".data))) .wb)

/-- `re.classify.freelance = /\b(freelance|self[- ]?employed|consultant|contractor)\b/i`. -/
def freelanceRE : RE :=
  .cat .wb
    (.cat
      (.alt (.strL "freelance".data)
        (.alt
          (.cat (.strL "self".data)
            (.cat (.opt (.cls fun c => c == '-' || c == ' ')) (.strL "employed".data)))
          (.alt (.strL "consultant".data) (.strL "contractor".data))))
      .wb)

/-- `re.classify.contract = /\b(contract|contractor|outsourced)\b/i`. -/
def contractRE : RE :=
  .cat .wb (.cat (altStrs ["contract".data, "contractor".data, "outsourced".data]) .wb)

/-- `re.classify.fulltime = /\b(full[- ]?time|permanent)\b/i`. -/
def fulltimeRE : RE :=
  .cat .wb
    (.cat
      (.alt
        (.cat (.strL "full".data)
          (.cat (.opt (.cls fun c => c == '-' || c == ' ')) (.strL "time".data)))
        (.strL "permanent".data))
      .wb)

/-- The line-local employment-type classification, first match wins, in
the engine's fixed order internship, parttime, freelance, contract,
fulltime, defaulting to `"unspecified"`. -/
def classify (line : List Char) : String :=
  if reTest internshipRE line then "internship"
  else if reTest parttimeRE line then "parttime"
  else if reTest freelanceRE line then "freelance"
  else if reTest contractRE line then "contract"
  else if reTest fulltimeRE line then "fulltime"
  else "unspecified"

/-- The location gazetteer
`/saudi arabia|ksa|riyadh|jeddah|dammam|khobar|amman|jordan|uae|dubai|turkey|pakistan|egypt/i`. -/
def GAZ : List (List Char) :=
  ["saudi arabia".data, "ksa".data, "riyadh".data, "jeddah".data, "dammam".data,
   "khobar".data, "amman".data, "jordan".data, "uae".data, "dubai".data,
   "turkey".data, "pakistan".data, "egypt".data]

/-- `(/gazetteer/i.exec(line))?.[0] ?? null`: the text of the leftmost
gazetteer match in the line. -/
def findLoc (line : List Char) : Option (List Char) :=
  match firstMatch (altStrs GAZ) line with
  | some (a, b, _) => some (slice line a b)
  | none => none

/-- `new RegExp(presentWords.join("|"), "i").test(toRaw)`: the
present-class keywords are joined as an (unanchored) alternation.  The
configured words are taken literally, which is exact whenever they
contain no regex metacharacters (as the defaults do). -/
def presentTest (presentWords : List (List Char)) (toRaw : List Char) : Bool :=
  reTest (altStrs presentWords) toRaw

/-- One extracted date range: the source line, its clamped endpoints,
its employment type, and the location tag found on the line. -/
structure RangeItem where
  line : List Char
  fromMY : MY
  toMY : MY
  type : String
  loc : Option (List Char)
deriving DecidableEq

/-- The loop body of `extractRanges` for one line: match `re.range`,
resolve both endpoints (a present-class terminal resolves `to` to the
current date `now`), clamp them, and — only when both clamps deliver a
value — emit the item with its classification and location tag. -/
def lineToItem (now : MY) (presentWords : List (List Char)) (line : List Char) :
    Option RangeItem :=
  match firstMatch rangeRE line with
  | none => none
  | some (_, _, caps) =>
    let getG : Option (Nat × Nat) → Option (List Char) :=
      fun o => o.map fun p => slice line p.1 p.2
    let monFromIdx : Option ℤ := (getG caps.g1).bind parseMonthToken
    let fromR : RawMY := parseY ((getG caps.g2).getD [])
    let monToIdx : Option ℤ := (getG caps.g3).bind parseMonthToken
    let toRaw : List Char := (getG caps.g4).getD []
    let toR : RawMY :=
      if presentTest presentWords toRaw then ⟨some now.y, now.m⟩
      else parseY toRaw
    match clampMonthYear (some ⟨fromR.y, monFromIdx.getD fromR.m⟩),
        clampMonthYear (some ⟨toR.y, monToIdx.getD toR.m⟩) with
    | some f, some t => some ⟨line, f, t, classify line, findLoc line⟩
    | _, _ => none

/-- `extractRanges(text, presentWords)`, with the system clock `new
Date()` passed in as `now`: scan the lines for date ranges. -/
def extractRanges (now : MY) (text : List Char) (presentWords : List (List Char)) :
    List RangeItem :=
  (splitLines text).filterMap (lineToItem now presentWords)

/-! ### `sumExperienceMonths` -/

/-- The result of `sumExperienceMonths`: the weighted total and the
unweighted per-type month buckets. -/
structure ExpSum where
  totalWeightedMonths : ℚ
  byTypeMonths : List (String × ℤ)
deriving DecidableEq

/-- The initial `byType` object, with its six employment-type keys. -/
def byTypeInit : List (String × ℤ) :=
  [("fulltime", 0), ("parttime", 0), ("freelance", 0), ("contract", 0),
   ("internship", 0), ("unspecified", 0)]

/-- Object lookup `o[k]`, as an association-list lookup. -/
def lookupQ (l : List (String × ℚ)) (k : String) : Option ℚ :=
  (l.find? fun p => p.1 == k).map Prod.snd

/-- `byType[k] = (byType[k] || 0) + v`: update the bucket `k`, creating
it when absent. -/
def assocAdd (l : List (String × ℤ)) (k : String) (v : ℤ) : List (String × ℤ) :=
  if (l.find? fun p => p.1 == k).isSome then
    l.map fun p => if p.1 == k then (p.1, p.2 + v) else p
  else l ++ [(k, v)]

/-- The weighted contribution of one range:
`Math.max(0, monthsBetween(r.from, r.to)) * (weightsByType[r.type] ?? 1.0)`. -/
def rangeWeightedMonths (weightsByType : List (String × ℚ)) (r : RangeItem) : ℚ :=
  ((max 0 (monthsBetween r.fromMY r.toMY) : ℤ) : ℚ) * (lookupQ weightsByType r.type).getD 1

/-- `sumExperienceMonths(ranges, weightsByType)`: fold the ranges into
the weighted total (each range's month count floored at 0) and the
unweighted per-type buckets. -/
def sumExperienceMonths (ranges : List RangeItem) (weightsByType : List (String × ℚ)) :
    ExpSum :=
  ranges.foldl
    (fun acc r =>
      ⟨acc.totalWeightedMonths + rangeWeightedMonths weightsByType r,
       assocAdd acc.byTypeMonths r.type (max 0 (monthsBetween r.fromMY r.toMY))⟩)
    ⟨0, byTypeInit⟩

/-! ### `monthsInRequiredLocation` -/

/-- Build the pattern for one joined term of
`requiredAny.join("|").replace(/\s+/g, "\\s+")`: every maximal
whitespace run of the term becomes `\s+`, every other character is a
literal.  The Boolean argument records whether the previous character
was part of a whitespace run already replaced. -/
def flexTermAux : Bool → List Char → RE
  | _, [] => .strL []
  | inSpace, c :: cs =>
    if isSpaceJS c then
      if inSpace then flexTermAux true cs
      else .cat (.rep isSpaceJS 1 none) (flexTermAux true cs)
    else .cat (.strL [c]) (flexTermAux false cs)

/-- The pattern for one required-location term, whitespace runs made
flexible (`\s+`).  The terms are taken literally, exact whenever they
contain no regex metacharacters. -/
def flexTerm (t : List Char) : RE := flexTermAux false t

/-- `monthsInRequiredLocation(ranges, requiredAny)`: total the
(0-floored) months of the ranges whose location tag matches the
required-location alternation.  The guard `r.loc && wanted.test(r.loc)`
skips a `null` tag and also an empty-string tag (both falsy). -/
def monthsInRequiredLocation (ranges : List RangeItem) (requiredAny : List (List Char)) :
    ℤ :=
  let wanted := altREs (requiredAny.map flexTerm)
  ranges.foldl
    (fun m r =>
      match r.loc with
      | some l =>
        if !l.isEmpty && reTest wanted l then m + max 0 (monthsBetween r.fromMY r.toMY)
        else m
      | none => m)
    0

/-! ### `hasAny` and `hasSkill` -/

/-- `needle.isPrefixOf hay` on characters, by decidable equality. -/
def isPrefixB : List Char → List Char → Bool
  | [], _ => true
  | _ :: _, [] => false
  | a :: as, b :: bs => a == b && isPrefixB as bs

/-- `hay.includes(needle)`: substring containment. -/
def isInfixB (needle hay : List Char) : Bool :=
  (List.range (hay.length + 1)).any fun i => isPrefixB needle (hay.drop i)

/-- `hasAny(text, arr) = arr.some(a => text.includes(a.toLowerCase()))`. -/
def hasAny (text : List Char) (arr : List (List Char)) : Bool :=
  arr.any fun a => isInfixB (a.map lc) text

/-- The pattern of `hasSkill`: after the engine escapes every regex
metacharacter of the term, `new RegExp("\\b" + escaped + "\\b", "i")`
is word-boundary-anchored literal matching of the term. -/
def wordRE (term : List Char) : RE := .cat .wb (.cat (.strL term) .wb)

/-- `hasSkill(text, skill)`: case-insensitive whole-word term matching. -/
def hasSkill (text term : List Char) : Bool := (firstMatch (wordRE term) text).isSome

/-- The condition for `wordRE term` to succeed at position `i`: a word
boundary, the term's characters (case-insensitively), and a word
boundary after them. -/
def matchWordAt (text term : List Char) (i : Nat) : Bool :=
  wbAt text i && ciAt text i term && wbAt text (i + term.length)

/-! ### `scoreSkills` -/

/-- One rubric skill item `{name, alternatives, weight}`. -/
structure SkillItem where
  name : List Char
  alternatives : Option (List (List Char)) := none
  weight : Option ℚ := none

/-- One entry of the `details` array of `scoreSkills`. -/
structure SkillDetail where
  name : List Char
  matched : String
  weight : ℚ
  pts : ℚ
  altHit : Option (List Char)
deriving DecidableEq

/-- `(item.weight || 0) * credit` for one item, where the credit is 1
for a main match, 0.6 for an alternative match, 0 otherwise. -/
def itemAdd (text : List Char) (item : SkillItem) : ℚ :=
  let foundMain := hasSkill text item.name
  let foundAlt := (item.alternatives.getD []).any fun a => hasSkill text a
  let credit : ℚ := if foundMain then 1 else if foundAlt then 3/5 else 0
  jsOrQ item.weight 0 * credit

/-- The detail record `scoreSkills` pushes for one item (its `pts`
field is the per-item `+add.toFixed(2)`). -/
def detailOf (text : List Char) (item : SkillItem) : SkillDetail :=
  let foundMain := hasSkill text item.name
  let foundAlt := (item.alternatives.getD []).any fun a => hasSkill text a
  ⟨item.name,
   if foundMain then "main" else if foundAlt then "alternative" else "none",
   jsOrQ item.weight 0,
   round2 (itemAdd text item),
   if foundAlt then (item.alternatives.getD []).find? (fun a => hasSkill text a) else none⟩

/-- The result of `scoreSkills`. -/
structure SkillScore where
  pts : ℚ
  details : List SkillDetail
deriving DecidableEq

/-- `scoreSkills(text, list)`: accumulate the per-item points and
details over the rubric list. -/
def scoreSkills (text : List Char) (list : List SkillItem) : SkillScore :=
  list.foldl
    (fun acc item => ⟨acc.pts + itemAdd text item, acc.details ++ [detailOf text item]⟩)
    ⟨0, []⟩

/-! ### `scoreLanguages` -/

/-- The language configuration `{mustAny, weight}`; `mustAny` is a list
of OR-groups. -/
structure LangCfg where
  mustAny : Option (List (List (List Char))) := none
  weight : Option ℚ := none

/-- The result of `scoreLanguages`. -/
structure LangScore where
  pts : ℚ
  groups : List (List (List Char))
  ok : Bool
deriving DecidableEq

/-- `scoreLanguages(text, cfg)`: satisfied iff every OR-group has a
member whole-word-present; binary points. -/
def scoreLanguages (text : List Char) (cfg : LangCfg) : LangScore :=
  let ok := (cfg.mustAny.getD []).all fun group => group.any fun l => hasSkill text l
  ⟨if ok then jsOrQ cfg.weight 0 else 0, cfg.mustAny.getD [], ok⟩

/-! ### `scoreLocationPresence` -/

/-- The location configuration `{requiredAny, weight, countMonthsInRequired}`. -/
structure LocCfg where
  requiredAny : Option (List (List Char)) := none
  weight : Option ℚ := none
  countMonthsInRequired : Bool := false

/-- The result of `scoreLocationPresence`. -/
structure LocScore where
  pts : ℚ
  monthsInRequired : ℤ
  mentioned : Bool
deriving DecidableEq

/-- The points of `scoreLocationPresence` before the final
`+pts.toFixed(2)`: 40% of the weight for bare textual presence, plus —
when month counting is enabled and there are ranges — 60% of the weight
scaled by `Math.min(1, months / 24)`. -/
def rawLocPts (text : List Char) (cfg : LocCfg) (ranges : List RangeItem) : ℚ :=
  (if hasAny text (cfg.requiredAny.getD []) then jsOrQ cfg.weight 0 * (2/5) else 0) +
    (if cfg.countMonthsInRequired && !ranges.isEmpty then
      jsOrQ cfg.weight 0 * (3/5) *
        min 1 ((monthsInRequiredLocation ranges (cfg.requiredAny.getD []) : ℚ) / 24)
    else 0)

/-- `scoreLocationPresence(text, cfg, ranges)`. -/
def scoreLocationPresence (text : List Char) (cfg : LocCfg) (ranges : List RangeItem) :
    LocScore :=
  ⟨round2 (rawLocPts text cfg ranges),
   (if cfg.countMonthsInRequired && !ranges.isEmpty then
     monthsInRequiredLocation ranges (cfg.requiredAny.getD [])
   else 0),
   hasAny text (cfg.requiredAny.getD [])⟩

/-! ### `scoreExperienceBlock` -/

/-- The experience configuration
`{minYears, weight, weightsByType, presentWords}`. -/
structure ExpCfg where
  minYears : Option ℚ := none
  weight : Option ℚ := none
  weightsByType : Option (List (String × ℚ)) := none
  presentWords : Option (List (List Char)) := none

/-- The default present-class keywords. -/
def defaultPresentWords : List (List Char) := ["present".data, "current".data, "now".data]

/-- The ranges `scoreExperienceBlock` extracts. -/
def expRanges (now : MY) (text : List Char) (cfg : ExpCfg) : List RangeItem :=
  extractRanges now text (cfg.presentWords.getD defaultPresentWords)

/-- `years = totalWeightedMonths / 12` inside `scoreExperienceBlock`
(before the reporting-only `toFixed(2)`). -/
def expYears (now : MY) (text : List Char) (cfg : ExpCfg) : ℚ :=
  (sumExperienceMonths (expRanges now text cfg) (cfg.weightsByType.getD [])).totalWeightedMonths / 12

/-- The credit fraction `ok` of `scoreExperienceBlock`:
`years >= (cfg.minYears || 0) ? 1 : Math.max(0, years / Math.max(1, cfg.minYears || 1))`. -/
def expFraction (now : MY) (text : List Char) (cfg : ExpCfg) : ℚ :=
  let years := expYears now text cfg
  if years ≥ jsOrQ cfg.minYears 0 then 1
  else max 0 (years / max 1 (jsOrQ cfg.minYears 1))

/-- The result of `scoreExperienceBlock`. -/
structure ExpScore where
  pts : ℚ
  years : ℚ
  ranges : List RangeItem
  byTypeMonths : List (String × ℤ)
deriving DecidableEq

/-- `scoreExperienceBlock(text, cfg)` (with the clock injected):
extract ranges, total the weighted months, convert to years, apply the
credit fraction, and scale by the configured weight; `pts` and `years`
are reported `toFixed(2)`. -/
def scoreExperienceBlock (now : MY) (text : List Char) (cfg : ExpCfg) : ExpScore :=
  ⟨round2 (expFraction now text cfg * jsOrQ cfg.weight 0),
   round2 (expYears now text cfg),
   expRanges now text cfg,
   (sumExperienceMonths (expRanges now text cfg) (cfg.weightsByType.getD [])).byTypeMonths⟩

/-- Modelled from the spec: the credit fraction the specification
states for a minimum-years requirement, `min(1, years / minYears)` if
`minYears > 0`, else full credit.  Used only to compare the
specification's formula against the code's `expFraction`. -/
def specExperienceFraction (years minYears : ℚ) : ℚ :=
  if 0 < minYears then min 1 (years / minYears) else 1

/-! ### Helper lemmas -/

theorem charOfNat_toNat {n : Nat} (h : n.isValidChar) : (Char.ofNat n).toNat = n := by
  unfold Char.ofNat
  rw [dif_pos h]
  rfl

theorem isWordChar_lc (c : Char) : isWordChar (lc c) = isWordChar c := by
  unfold lc
  by_cases h : (65 ≤ c.toNat && c.toNat ≤ 90) = true
  · rw [if_pos h]
    simp only [Bool.and_eq_true, decide_eq_true_eq] at h
    have hv : (Char.ofNat (c.toNat + 32)).toNat = c.toNat + 32 :=
      charOfNat_toNat (Or.inl (by omega))
    unfold isWordChar
    rw [hv, Bool.eq_iff_iff]
    simp only [Bool.or_eq_true, Bool.and_eq_true, decide_eq_true_eq, beq_iff_eq]
    omega
  · rw [if_neg h]

theorem ratFloor_intFloor (q : ℚ) : (Rat.floor q : ℤ) = ⌊q⌋ :=
  (Rat.floor_def' q).trans Rat.floor_def.symm

theorem round2_eval (q r : ℚ) (z : ℤ) (h1 : (z : ℚ) ≤ 100 * q + 1/2)
    (h2 : 100 * q + 1/2 < z + 1) (h3 : (z : ℚ) / 100 = r) : round2 q = r := by
  unfold round2
  rw [ratFloor_intFloor, Int.floor_eq_iff.mpr ⟨h1, h2⟩, h3]

theorem round2_le_add (q : ℚ) : round2 q ≤ q + 1/200 := by
  unfold round2
  have h : ((100 * q + 1/2).floor : ℚ) ≤ 100 * q + 1/2 := Rat.le_floor.mp le_rfl
  linarith

theorem mtch_wordRE (t s : List Char) (i : Nat) (caps : Caps)
    (k : Nat → Caps → Option (Nat × Caps)) :
    mtch (wordRE t) s i caps k =
      if matchWordAt s t i then k (i + t.length) caps else none := by
  unfold wordRE matchWordAt
  simp only [mtch]
  by_cases h1 : wbAt s i <;> by_cases h2 : ciAt s i t <;>
    by_cases h3 : wbAt s (i + t.length) <;> simp [h1, h2, h3]

theorem scanCount_isSome (r : RE) (s : List Char) :
    ∀ (n i : Nat), (scanCount r s i n).isSome = true ↔
      ∃ j, i ≤ j ∧ j < i + n ∧
        (mtch r s j Caps.empty fun e c => some (e, c)).isSome = true := by
  intro n
  induction n with
  | zero =>
    intro i
    simp only [scanCount, Option.isSome_none]
    constructor
    · intro h; cases h
    · rintro ⟨j, h1, h2, -⟩; omega
  | succ m ih =>
    intro i
    unfold scanCount
    cases hm : mtch r s i Caps.empty fun e c => some (e, c) with
    | some v =>
      obtain ⟨j, c⟩ := v
      simp only [Option.isSome_some, true_iff]
      exact ⟨i, le_rfl, by omega, by rw [hm]; rfl⟩
    | none =>
      rw [ih (i + 1)]
      constructor
      · rintro ⟨j, h1, h2, h3⟩
        exact ⟨j, by omega, by omega, h3⟩
      · rintro ⟨j, h1, h2, h3⟩
        rcases eq_or_lt_of_le h1 with rfl | hlt
        · rw [hm] at h3; cases h3
        · exact ⟨j, by omega, by omega, h3⟩

theorem hasSkill_iff (text term : List Char) :
    hasSkill text term = true ↔
      ∃ i, i ≤ text.length ∧ matchWordAt text term i = true := by
  unfold hasSkill firstMatch
  rw [scanCount_isSome]
  constructor
  · rintro ⟨j, -, h2, h3⟩
    rw [mtch_wordRE] at h3
    refine ⟨j, by omega, ?_⟩
    by_cases h : matchWordAt text term j
    · exact h
    · rw [if_neg h] at h3; cases h3
  · rintro ⟨i, h1, h2⟩
    refine ⟨i, by omega, by omega, ?_⟩
    rw [mtch_wordRE, if_pos h2]
    rfl

theorem ciAt_get (s : List Char) : ∀ (t : List Char) (i k : Nat),
    ciAt s i t = true → k < t.length →
    ∃ d c, s.get? (i + k) = some d ∧ t.get? k = some c ∧ lc d = lc c := by
  intro t
  induction t with
  | nil => intro i k _ hk; simp at hk
  | cons c cs ih =>
    intro i k hci hk
    unfold ciAt at hci
    cases hd : s.get? i with
    | none => rw [hd] at hci; cases hci
    | some d =>
      rw [hd] at hci
      simp only [Bool.and_eq_true, beq_iff_eq] at hci
      cases k with
      | zero => exact ⟨d, c, by simpa using hd, rfl, hci.1⟩
      | succ m =>
        obtain ⟨d', c', h1, h2, h3⟩ := ih (i + 1) m hci.2 (by simpa using hk)
        refine ⟨d', c', ?_, by simpa using h2, h3⟩
        rw [← h1]
        congr 1
        omega

theorem sumExp_total_aux (w : List (String × ℚ)) :
    ∀ (l : List RangeItem) (init : ℚ) (bt : List (String × ℤ)),
      (l.foldl
        (fun acc r =>
          (⟨acc.totalWeightedMonths + rangeWeightedMonths w r,
            assocAdd acc.byTypeMonths r.type (max 0 (monthsBetween r.fromMY r.toMY))⟩ :
            ExpSum))
        ⟨init, bt⟩).totalWeightedMonths = init + (l.map (rangeWeightedMonths w)).sum := by
  intro l
  induction l with
  | nil => intro init bt; simp
  | cons r rs ih =>
    intro init bt
    simp only [List.foldl, List.map, List.sum_cons]
    rw [ih]
    ring

theorem scoreSkills_pts_aux (text : List Char) :
    ∀ (l : List SkillItem) (init : ℚ) (ds : List SkillDetail),
      (l.foldl
        (fun acc item =>
          (⟨acc.pts + itemAdd text item, acc.details ++ [detailOf text item]⟩ : SkillScore))
        ⟨init, ds⟩).pts = init + (l.map (itemAdd text)).sum := by
  intro l
  induction l with
  | nil => intro init ds; simp
  | cons x xs ih =>
    intro init ds
    simp only [List.foldl, List.map, List.sum_cons]
    rw [ih]
    ring

/-! ### The claims -/

/-- Claim C1: `monthsBetween(from, to) = (to.y − from.y) × 12 + (to.m −
from.m) + 1`, an inclusive count; for valid `MonthYear`s with
`from ≤ to` it is at least 1, a range inside one month counts exactly
1, and the aggregation `sumExperienceMonths` floors a negative count at
0 in every range's contribution. -/
theorem C1_monthsBetween_inclusive_and_floored :
    (∀ a b : MY, monthsBetween a b = (b.y - a.y) * 12 + (b.m - a.m) + 1) ∧
    (∀ a b : MY, validMY a → validMY b →
      (a.y < b.y ∨ (a.y = b.y ∧ a.m ≤ b.m)) → 1 ≤ monthsBetween a b) ∧
    (∀ a b : MY, a.y = b.y → a.m = b.m → monthsBetween a b = 1) ∧
    (∀ (ranges : List RangeItem) (w : List (String × ℚ)),
      (sumExperienceMonths ranges w).totalWeightedMonths =
        (ranges.map fun r =>
          ((max 0 (monthsBetween r.fromMY r.toMY) : ℤ) : ℚ) *
            (lookupQ w r.type).getD 1).sum) := by
  refine ⟨fun a b => rfl, ?_, ?_, ?_⟩
  · intro a b ha hb hle
    unfold validMY at ha hb
    unfold monthsBetween
    omega
  · intro a b hy hm
    unfold monthsBetween
    omega
  · intro ranges w
    unfold sumExperienceMonths
    rw [sumExp_total_aux, zero_add]
    rfl

/-- Witness for C1: the hypotheses of its second conjunct hold at the
concrete valid pair April 2020 ≤ February 2021, and the conclusion
follows by applying the claim's theorem there. -/
theorem C1_witness : 1 ≤ monthsBetween ⟨2020, 3⟩ ⟨2021, 1⟩ :=
  C1_monthsBetween_inclusive_and_floored.2.1 ⟨2020, 3⟩ ⟨2021, 1⟩
    (by decide) (by decide) (by decide)

/-- The input of claim C2. -/
def exC2 : List Char := "Jan 2020 – Present".data

/-- Claim C2 counterexample: for `"Jan 2020 – Present"` with the current
month June 2024 (`{y: 2024, m: 5}`), the extracted range does NOT have
`monthsBetween = 53` (it has 54: the count is inclusive). -/
theorem C2_counterexample :
    ¬ ((extractRanges ⟨2024, 5⟩ exC2 defaultPresentWords).map
        (fun r => monthsBetween r.fromMY r.toMY) = [53]) := by
  decide

/-- Claim C2 (amended): a present-class terminal resolves the end date
to the injected current month: for `"Jan 2020 – Present"` with current
month June 2024 the single extracted range runs from January 2020 to
June 2024 and `monthsBetween = 54`; with current month November 2031
the same text resolves to November 2031. -/
theorem C2_amended_present_resolves_to_now :
    (extractRanges ⟨2024, 5⟩ exC2 defaultPresentWords =
      [⟨exC2, ⟨2020, 0⟩, ⟨2024, 5⟩, "unspecified", none⟩]) ∧
    monthsBetween ⟨2020, 0⟩ ⟨2024, 5⟩ = 54 ∧
    (extractRanges ⟨2031, 10⟩ exC2 defaultPresentWords =
      [⟨exC2, ⟨2020, 0⟩, ⟨2031, 10⟩, "unspecified", none⟩]) := by
  refine ⟨by decide, by decide, by decide⟩

/-- Claim C8 counterexample: an endpoint whose year is unparsable
(`parseY` yields a `NaN` year) is NOT discarded by the clamping step:
`clampMonthYear` turns it into the fallback date January 1900 instead
of `null`, so the `!fromObj || !toObj` discard branch cannot fire on
it. -/
theorem C8_counterexample :
    (parseY "abc".data).y = none ∧
    clampMonthYear (some (parseY "abc".data)) = some ⟨1900, 0⟩ ∧
    clampMonthYear (some (parseY "abc".data)) ≠ none := by
  refine ⟨by decide, by decide, by decide⟩

/-- Claim C8 (amended): endpoint resolution inside `extractRanges` is
total — a line yields an item exactly when the range pattern matches
it, so the discard branch is unreachable — and an endpoint whose year
is unparsable is defaulted to year 1900 (NaN is coerced to 0 and then
clamped), not discarded. -/
theorem C8_amended_unresolved_endpoint_defaults :
    (∀ (now : MY) (pw : List (List Char)) (line : List Char),
      (lineToItem now pw line).isSome = (firstMatch rangeRE line).isSome) ∧
    (∀ tok : List Char, (parseY tok).y = none →
      ∃ mm, clampMonthYear (some (parseY tok)) = some ⟨1900, mm⟩) := by
  constructor
  · intro now pw line
    unfold lineToItem
    cases hm : firstMatch rangeRE line with
    | none => rfl
    | some v =>
      obtain ⟨st, en, caps⟩ := v
      simp [clampMonthYear]
  · intro tok h
    refine ⟨max 0 (min 11 (jsOrI (some (parseY tok).m) 0)), ?_⟩
    show some (⟨max 1900 (min 2200 (jsOrI (parseY tok).y 0)), _⟩ : MY) = _
    rw [h]
    rfl

/-- Witness for C8 (amended): the unparsable token `"abc"` satisfies the
hypothesis of the second conjunct, and applying the theorem there gives
the defaulted January-1900 endpoint. -/
theorem C8_witness :
    ∃ mm, clampMonthYear (some (parseY "abc".data)) = some ⟨1900, mm⟩ :=
  C8_amended_unresolved_endpoint_defaults.2 "abc".data (by decide)

/-- Claim C9: every range `extractRanges` produces, for every clock,
text and present-word configuration, satisfies the `MonthYear`
invariant at both endpoints: years in [1900, 2200] and months in
[0, 11]. -/
theorem C9_extractRanges_MonthYear_invariant (now : MY) (text : List Char)
    (pw : List (List Char)) (r : RangeItem) (hr : r ∈ extractRanges now text pw) :
    validMY r.fromMY ∧ validMY r.toMY := by
  unfold extractRanges at hr
  rw [List.mem_filterMap] at hr
  obtain ⟨line, -, h⟩ := hr
  unfold lineToItem at h
  cases hm : firstMatch rangeRE line with
  | none => rw [hm] at h; cases h
  | some v =>
    rw [hm] at h
    obtain ⟨st, en, caps⟩ := v
    simp only [clampMonthYear, Option.some.injEq] at h
    subst h
    unfold validMY
    refine ⟨⟨?_, ?_, ?_, ?_⟩, ⟨?_, ?_, ?_, ?_⟩⟩ <;> simp

/-- Witness for C9: the invariant holds of the concrete range extracted
from `"Jan 2020 – Present"` at clock June 2024, by applying the claim's
theorem to that member of the extracted list. -/
theorem C9_witness :
    validMY (⟨exC2, ⟨2020, 0⟩, ⟨2024, 5⟩, "unspecified", none⟩ : RangeItem).fromMY ∧
    validMY (⟨exC2, ⟨2020, 0⟩, ⟨2024, 5⟩, "unspecified", none⟩ : RangeItem).toMY :=
  C9_extractRanges_MonthYear_invariant ⟨2024, 5⟩ exC2 defaultPresentWords
    ⟨exC2, ⟨2020, 0⟩, ⟨2024, 5⟩, "unspecified", none⟩ (by decide)

/-- Claim C10: an empty (or absent) list of OR-groups makes the
language requirement vacuously satisfied, and the full configured
weight is awarded for every text. -/
theorem C10_empty_language_groups_full_credit :
    ∀ (text : List Char) (w : Option ℚ),
      ((scoreLanguages text ⟨none, w⟩).ok = true ∧
        (scoreLanguages text ⟨none, w⟩).pts = jsOrQ w 0) ∧
      ((scoreLanguages text ⟨some [], w⟩).ok = true ∧
        (scoreLanguages text ⟨some [], w⟩).pts = jsOrQ w 0) := by
  intro text w
  exact ⟨⟨rfl, rfl⟩, ⟨rfl, rfl⟩⟩

/-- Claim C5: `hasSkill` is case-insensitive whole-word matching — the
escaped term is matched literally between word boundaries, so it can
match only where `matchWordAt` holds, and it never matches as a proper
substring of a longer word (a position with an adjacent word character
when the term consists of word characters); in particular `"go"` does
not match inside `"going"` but does match the standalone word `"GO"`. -/
theorem C5_hasSkill_whole_word :
    (hasSkill "going".data "go".data = false) ∧
    (hasSkill "I know GO well".data "go".data = true) ∧
    (∀ text term : List Char,
      hasSkill text term = true ↔
        ∃ i, i ≤ text.length ∧ matchWordAt text term i = true) ∧
    (∀ (text term : List Char) (i : Nat), term ≠ [] →
      (∀ c ∈ term, isWordChar c = true) →
      ((0 < i ∧ wordishAt text (i - 1) = true) ∨
        wordishAt text (i + term.length) = true) →
      matchWordAt text term i = false) := by
  refine ⟨by decide, by decide, hasSkill_iff, ?_⟩
  intro text term i hne hword hin
  by_contra hmw
  rw [Bool.not_eq_false] at hmw
  unfold matchWordAt at hmw
  simp only [Bool.and_eq_true] at hmw
  obtain ⟨⟨hwb1, hci⟩, hwb2⟩ := hmw
  have hlen : 0 < term.length := List.length_pos.mpr hne
  rcases hin with ⟨hi, hw⟩ | hw
  · -- a word character right before the occurrence
    obtain ⟨d, c, hd, hc, hlc⟩ := ciAt_get text term i 0 hci hlen
    have hcw : isWordChar c = true := hword c (List.get?_mem hc)
    have hdw : isWordChar d = true := by
      rw [← isWordChar_lc d, hlc, isWordChar_lc]; exact hcw
    have hwt : wordishAt text i = true := by
      unfold wordishAt
      rw [show text.get? i = some d from by simpa using hd]
      exact hdw
    unfold wbAt at hwb1
    rw [if_neg (by omega), hw, hwt] at hwb1
    cases hwb1
  · -- a word character right after the occurrence
    obtain ⟨d, c, hd, hc, hlc⟩ :=
      ciAt_get text term i (term.length - 1) hci (by omega)
    have hcw : isWordChar c = true := hword c (List.get?_mem hc)
    have hdw : isWordChar d = true := by
      rw [← isWordChar_lc d, hlc, isWordChar_lc]; exact hcw
    have hwt : wordishAt text (i + term.length - 1) = true := by
      unfold wordishAt
      rw [show text.get? (i + term.length - 1) = some d from by rw [← hd]; congr 1; omega]
      exact hdw
    unfold wbAt at hwb2
    rw [if_neg (by omega), hwt, hw] at hwb2
    cases hwb2

/-- The sample text and configuration of claim C6. -/
def exC6text : List Char := "english french".data

/-- The OR-group configuration of claim C6. -/
def exC6cfg : LangCfg :=
  ⟨some [["english".data], ["arabic".data, "french".data]], some 5⟩

/-- Claim C6: the language requirement is satisfied iff every
configured OR-group has at least one member whole-word-present (AND
across groups, OR within a group), points are binary (full weight or
zero), and the groups `[["english"], ["arabic", "french"]]` are
satisfied by a text containing only "english" and "french". -/
theorem C6_languages_and_of_ors :
    (∀ (text : List Char) (cfg : LangCfg),
      ((scoreLanguages text cfg).ok = true ↔
        ∀ g ∈ cfg.mustAny.getD [], ∃ l ∈ g, hasSkill text l = true) ∧
      (scoreLanguages text cfg).pts =
        (if (scoreLanguages text cfg).ok then jsOrQ cfg.weight 0 else 0)) ∧
    (scoreLanguages exC6text exC6cfg).ok = true := by
  refine ⟨fun text cfg => ⟨?_, rfl⟩, by decide⟩
  show ((cfg.mustAny.getD []).all fun group => group.any fun l => hasSkill text l) = true ↔ _
  simp [List.all_eq_true, List.any_eq_true]

/-- The weight-0 main-match item of the C4 counterexample. -/
def exC4main : SkillItem := ⟨"java".data, none, some 0⟩

/-- The weight-0 alternative-match item of the C4 counterexample. -/
def exC4alt : SkillItem := ⟨"cobol".data, some ["java".data], some 0⟩

/-- Claim C4 counterexample: with identical weight 0, a main-term match
and an alternative-term match both award 0 points, so the main match
is NOT strictly greater. -/
theorem C4_counterexample :
    ((scoreSkills "java".data [exC4main]).details.map SkillDetail.matched = ["main"]) ∧
    ((scoreSkills "java".data [exC4alt]).details.map SkillDetail.matched = ["alternative"]) ∧
    ¬ ((scoreSkills "java".data [exC4alt]).pts < (scoreSkills "java".data [exC4main]).pts) := by
  have h1 : (scoreSkills "java".data [exC4main]).pts = 0 := by
    simp [scoreSkills, itemAdd, exC4main, jsOrQ]
  have h2 : (scoreSkills "java".data [exC4alt]).pts = 0 := by
    simp [scoreSkills, itemAdd, exC4alt, jsOrQ]
  refine ⟨by decide, by decide, ?_⟩
  rw [h1, h2]
  exact lt_irrefl 0

/-- Claim C4 (amended): the skill score is the sum of the per-item
points; an item awards `weight × 1` on a main match, `weight × 0.6` on
an alternative-only match, and exactly 0 on no match; for identical
POSITIVE weight a main match awards strictly more than an
alternative-only match (with weight 0 both award 0). -/
theorem C4_amended_skill_credit :
    (∀ (text : List Char) (list : List SkillItem),
      (scoreSkills text list).pts = (list.map (itemAdd text)).sum) ∧
    (∀ (text : List Char) (item : SkillItem),
      itemAdd text item = jsOrQ item.weight 0 *
        (if hasSkill text item.name then 1
         else if (item.alternatives.getD []).any (fun a => hasSkill text a) then 3/5
         else 0)) ∧
    (∀ (text : List Char) (item : SkillItem),
      hasSkill text item.name = false →
      (item.alternatives.getD []).any (fun a => hasSkill text a) = false →
      itemAdd text item = 0) ∧
    (∀ (t1 t2 : List Char) (i1 i2 : SkillItem),
      hasSkill t1 i1.name = true →
      hasSkill t2 i2.name = false →
      jsOrQ i1.weight 0 = jsOrQ i2.weight 0 →
      0 < jsOrQ i1.weight 0 →
      itemAdd t2 i2 < itemAdd t1 i1) := by
  refine ⟨?_, fun text item => rfl, ?_, ?_⟩
  · intro text list
    unfold scoreSkills
    rw [scoreSkills_pts_aux, zero_add]
  · intro text item hm ha
    unfold itemAdd
    rw [hm, ha]
    simp
  · intro t1 t2 i1 i2 h1 h2 hw hpos
    have key : ∀ (text : List Char) (item : SkillItem),
        itemAdd text item = jsOrQ item.weight 0 *
          (if hasSkill text item.name then 1
           else if (item.alternatives.getD []).any (fun a => hasSkill text a) then 3/5
           else 0) := fun _ _ => rfl
    rw [key, key, h1, h2, ← hw, if_pos rfl, mul_one,
      if_neg (by simp : ¬ ((false : Bool) = true))]
    by_cases hA : ((i2.alternatives.getD []).any fun a => hasSkill t2 a) = true
    · rw [if_pos hA]
      calc jsOrQ i1.weight 0 * (3/5) < jsOrQ i1.weight 0 * 1 :=
            mul_lt_mul_of_pos_left (by norm_num) hpos
        _ = jsOrQ i1.weight 0 := mul_one _
    · rw [if_neg hA, mul_zero]
      exact hpos

/-- Witness for C4 (amended): with weight 10, the alternative-only item
scores strictly below the main-match item on the text "java", by the
strictness conjunct of the amended theorem at those concrete inputs. -/
theorem C4_witness :
    itemAdd "java".data ⟨"cobol".data, some ["java".data], some 10⟩ <
      itemAdd "java".data ⟨"java".data, none, some 10⟩ :=
  C4_amended_skill_credit.2.2.2 "java".data "java".data
    ⟨"java".data, none, some 10⟩ ⟨"cobol".data, some ["java".data], some 10⟩
    (by decide) (by decide) rfl (by norm_num [jsOrQ])

/-- The text of the C3 counterexample: a single three-month range. -/
def exC3text : List Char := "jan 2020 - mar 2020".data

/-- The range extracted from `exC3text`. -/
def exC3item : RangeItem := ⟨exC3text, ⟨2020, 0⟩, ⟨2020, 2⟩, "unspecified", none⟩

/-- The C3 counterexample configuration: a fractional `minYears` of
half a year. -/
def exC3cfg : ExpCfg := { minYears := some (1/2), weight := some 1 }

/-- The C3 witness configuration: `minYears = 2`. -/
def exC3cfgW : ExpCfg := { minYears := some 2, weight := some 1 }

theorem expYears_exC3_aux (mY w : Option ℚ) :
    expYears ⟨2024, 5⟩ exC3text ⟨mY, w, none, none⟩ = 1/4 := by
  have hr : expRanges ⟨2024, 5⟩ exC3text ⟨mY, w, none, none⟩ = [exC3item] := by
    show extractRanges ⟨2024, 5⟩ exC3text defaultPresentWords = [exC3item]
    decide
  unfold expYears
  rw [hr]
  have hs : (sumExperienceMonths [exC3item] ((⟨mY, w, none, none⟩ : ExpCfg).weightsByType.getD [])).totalWeightedMonths =
      0 + rangeWeightedMonths [] exC3item := rfl
  rw [hs]
  unfold rangeWeightedMonths
  rw [show (max 0 (monthsBetween exC3item.fromMY exC3item.toMY) : ℤ) = 3 from by decide,
    show lookupQ [] exC3item.type = none from rfl]
  norm_num

theorem expYears_exC3 : expYears ⟨2024, 5⟩ exC3text exC3cfg = 1/4 := by
  rw [show exC3cfg = (⟨some (1/2), some 1, none, none⟩ : ExpCfg) from rfl]
  exact expYears_exC3_aux _ _

theorem expYears_exC3W : expYears ⟨2024, 5⟩ exC3text exC3cfgW = 1/4 := by
  rw [show exC3cfgW = (⟨some 2, some 1, none, none⟩ : ExpCfg) from rfl]
  exact expYears_exC3_aux _ _

theorem expFraction_exC3 : expFraction ⟨2024, 5⟩ exC3text exC3cfg = 1/4 := by
  unfold expFraction
  rw [expYears_exC3]
  norm_num [jsOrQ, exC3cfg, max_def]

theorem expPts_exC3 : (scoreExperienceBlock ⟨2024, 5⟩ exC3text exC3cfg).pts = 1/4 := by
  show round2 (expFraction ⟨2024, 5⟩ exC3text exC3cfg * jsOrQ exC3cfg.weight 0) = 1/4
  rw [expFraction_exC3, show jsOrQ exC3cfg.weight 0 = 1 from by norm_num [jsOrQ, exC3cfg],
    mul_one]
  exact round2_eval (1/4) (1/4) 25 (by norm_num) (by norm_num) (by norm_num)

/-- Claim C3 counterexample: with `minYears = 1/2` and a three-month
range (`years = 1/4 < minYears`), the engine's credit is
`years / max(1, minYears) = 1/4`, not the claimed
`min(1, years / minYears) = 1/2` — the reported points differ from the
specification's `fraction × weight`. -/
theorem C3_counterexample :
    (scoreExperienceBlock ⟨2024, 5⟩ exC3text exC3cfg).pts ≠
      specExperienceFraction (expYears ⟨2024, 5⟩ exC3text exC3cfg)
        (jsOrQ exC3cfg.minYears 0) * jsOrQ exC3cfg.weight 0 := by
  rw [expPts_exC3, expYears_exC3]
  norm_num [specExperienceFraction, jsOrQ, exC3cfg, min_def]

/-- Claim C3 (amended): the experience points are the credit fraction
times the configured weight, rounded to two decimals; the fraction is 1
when `minYears` is 0 or absent (for a non-negative year total), and it
equals the claimed `min(1, years / minYears)` whenever `minYears ≥ 1`
(for `0 < minYears < 1` the engine divides by `max(1, minYears) = 1`
instead of by `minYears`). -/
theorem C3_amended_experience_fraction :
    (∀ (now : MY) (text : List Char) (cfg : ExpCfg),
      (scoreExperienceBlock now text cfg).pts =
        round2 (expFraction now text cfg * jsOrQ cfg.weight 0)) ∧
    (∀ (now : MY) (text : List Char) (cfg : ExpCfg),
      0 ≤ expYears now text cfg → jsOrQ cfg.minYears 0 = 0 →
      expFraction now text cfg = 1) ∧
    (∀ (now : MY) (text : List Char) (cfg : ExpCfg),
      0 ≤ expYears now text cfg → 1 ≤ jsOrQ cfg.minYears 0 →
      expFraction now text cfg =
        min 1 (expYears now text cfg / jsOrQ cfg.minYears 0)) := by
  refine ⟨fun now text cfg => rfl, ?_, ?_⟩
  · intro now text cfg hy h0
    show (if expYears now text cfg ≥ jsOrQ cfg.minYears 0 then (1 : ℚ)
      else max 0 (expYears now text cfg / max 1 (jsOrQ cfg.minYears 1))) = 1
    rw [if_pos (by rw [h0]; exact hy)]
  · intro now text cfg hy h1
    cases hcm : cfg.minYears with
    | none => rw [hcm] at h1; norm_num [jsOrQ] at h1
    | some v =>
      rw [hcm] at h1
      have hv0 : v ≠ 0 := by
        intro h
        rw [h] at h1
        norm_num [jsOrQ] at h1
      have hval : jsOrQ (some v) 0 = v := by simp [jsOrQ, hv0]
      have hval1 : jsOrQ (some v) 1 = v := by simp [jsOrQ, hv0]
      rw [hval] at h1
      have hvpos : (0 : ℚ) < v := by linarith
      show (if expYears now text cfg ≥ jsOrQ cfg.minYears 0 then (1 : ℚ)
        else max 0 (expYears now text cfg / max 1 (jsOrQ cfg.minYears 1))) = _
      rw [hcm, hval, hval1, max_eq_right h1]
      by_cases hge : expYears now text cfg ≥ v
      · rw [if_pos hge, eq_comm]
        exact min_eq_left ((one_le_div hvpos).mpr hge)
      · rw [if_neg hge]
        push_neg at hge
        have hdiv : expYears now text cfg / v < 1 := (div_lt_one hvpos).mpr hge
        have hdnn : 0 ≤ expYears now text cfg / v := div_nonneg hy (le_of_lt hvpos)
        rw [max_eq_right hdnn, min_eq_right (le_of_lt hdiv)]

/-- Witness for C3 (amended): for `minYears = 2` and the three-month
text (`years = 1/4 ≥ 0`), the amended theorem applies and the engine's
fraction equals `min(1, years / minYears)`. -/
theorem C3_witness :
    expFraction ⟨2024, 5⟩ exC3text exC3cfgW =
      min 1 (expYears ⟨2024, 5⟩ exC3text exC3cfgW / jsOrQ exC3cfgW.minYears 0) :=
  C3_amended_experience_fraction.2.2 ⟨2024, 5⟩ exC3text exC3cfgW
    (by rw [expYears_exC3W]; norm_num) (by norm_num [jsOrQ, exC3cfgW])

/-- The tagged 25-month range of the C7 counterexample. -/
def exC7range : RangeItem := ⟨[], ⟨2000, 0⟩, ⟨2002, 0⟩, "unspecified", some "ksa".data⟩

/-- The C7 counterexample configuration: weight `0.006`, month counting
enabled. -/
def exC7cfg : LocCfg := ⟨some ["ksa".data], some (3/500), true⟩

theorem rawLocPts_exC7 : rawLocPts "ksa".data exC7cfg [exC7range] = 3/500 := by
  unfold rawLocPts
  rw [show hasAny "ksa".data (exC7cfg.requiredAny.getD []) = true from by decide,
    show (exC7cfg.countMonthsInRequired && !([exC7range] : List RangeItem).isEmpty) = true
      from by decide,
    if_pos rfl, if_pos rfl,
    show monthsInRequiredLocation [exC7range] (exC7cfg.requiredAny.getD []) = 25 from by
      decide]
  norm_num [jsOrQ, exC7cfg, min_def]

/-- Claim C7 counterexample: with weight `0.006`, a mentioned required
location and 25 tagged months, the raw points are exactly `0.006`, but
the reported (2-decimal-rounded) location points are `0.01`, EXCEEDING
the configured weight. -/
theorem C7_counterexample :
    ¬ ((scoreLocationPresence "ksa".data exC7cfg [exC7range]).pts ≤
        jsOrQ exC7cfg.weight 0) := by
  have hpts : (scoreLocationPresence "ksa".data exC7cfg [exC7range]).pts = 1/100 := by
    show round2 (rawLocPts "ksa".data exC7cfg [exC7range]) = 1/100
    rw [rawLocPts_exC7]
    exact round2_eval (3/500) (1/100) 1 (by norm_num) (by norm_num) (by norm_num)
  rw [hpts]
  norm_num [jsOrQ, exC7cfg]

/-- Claim C7 (amended): the location points are the 2-decimal rounding
of two additive, independently capped signals — 40% of the weight iff a
required-location term is textually present, plus (when month counting
is enabled and ranges exist) 60% of the weight scaled by
`min(1, months / 24)` with the FIXED 24-month ceiling; for a
non-negative weight the pre-rounding points never exceed the weight,
and the reported points exceed it by at most `1/200` (rounding). -/
theorem C7_amended_location_points :
    (∀ (text : List Char) (cfg : LocCfg) (ranges : List RangeItem),
      (scoreLocationPresence text cfg ranges).pts =
        round2
          ((if hasAny text (cfg.requiredAny.getD []) then jsOrQ cfg.weight 0 * (2/5)
            else 0) +
            (if cfg.countMonthsInRequired && !ranges.isEmpty then
              jsOrQ cfg.weight 0 * (3/5) *
                min 1 ((monthsInRequiredLocation ranges (cfg.requiredAny.getD []) : ℚ) / 24)
            else 0))) ∧
    (∀ (text : List Char) (cfg : LocCfg) (ranges : List RangeItem),
      0 ≤ jsOrQ cfg.weight 0 →
      rawLocPts text cfg ranges ≤ jsOrQ cfg.weight 0 ∧
      (scoreLocationPresence text cfg ranges).pts ≤ jsOrQ cfg.weight 0 + 1/200) := by
  constructor
  · intro text cfg ranges
    rfl
  · intro text cfg ranges hw
    have h1 : (if hasAny text (cfg.requiredAny.getD []) then jsOrQ cfg.weight 0 * (2/5)
        else 0) ≤ jsOrQ cfg.weight 0 * (2/5) := by
      split
      · exact le_rfl
      · exact mul_nonneg hw (by norm_num)
    have h2 : (if cfg.countMonthsInRequired && !ranges.isEmpty then
        jsOrQ cfg.weight 0 * (3/5) *
          min 1 ((monthsInRequiredLocation ranges (cfg.requiredAny.getD []) : ℚ) / 24)
        else 0) ≤ jsOrQ cfg.weight 0 * (3/5) := by
      split
      · calc jsOrQ cfg.weight 0 * (3/5) *
              min 1 ((monthsInRequiredLocation ranges (cfg.requiredAny.getD []) : ℚ) / 24) ≤
              jsOrQ cfg.weight 0 * (3/5) * 1 :=
            mul_le_mul_of_nonneg_left (min_le_left _ _) (mul_nonneg hw (by norm_num))
          _ = jsOrQ cfg.weight 0 * (3/5) := mul_one _
      · exact mul_nonneg hw (by norm_num)
    have hraw : rawLocPts text cfg ranges ≤ jsOrQ cfg.weight 0 := by
      unfold rawLocPts
      linarith
    refine ⟨hraw, ?_⟩
    show round2 (rawLocPts text cfg ranges) ≤ jsOrQ cfg.weight 0 + 1/200
    calc round2 (rawLocPts text cfg ranges) ≤ rawLocPts text cfg ranges + 1/200 :=
          round2_le_add _
      _ ≤ jsOrQ cfg.weight 0 + 1/200 := by linarith

/-- Witness for C7 (amended): the non-negative weight `0.006` satisfies
the hypothesis, and the amended theorem applied at the concrete C7
inputs bounds the raw and reported points. -/
theorem C7_witness :
    rawLocPts "ksa".data exC7cfg [exC7range] ≤ jsOrQ exC7cfg.weight 0 ∧
    (scoreLocationPresence "ksa".data exC7cfg [exC7range]).pts ≤
      jsOrQ exC7cfg.weight 0 + 1/200 :=
  C7_amended_location_points.2 "ksa".data exC7cfg [exC7range]
    (by norm_num [jsOrQ, exC7cfg])

end CVEngine
